import Mathlib

/-!
Shallow embedding of the `obsidian-meeting-intelligence` plugin pipeline.

The embedding follows the JavaScript source:
  * `src/main.js` — `extractActionItems`, `extractDecisions`, `findRelatedNotes`,
    `createMeetingNote`, `transcribeAudio`, `resetModal`, `MEETING_TEMPLATE`;
  * `src/unnamed/part_001` (`AudioConverter`) — `resample`, `encodeWav`,
    `audioBufferToWav`.

Strings are modelled as Lean `String` / `List Char` (the transcripts in play are
ASCII, so JavaScript UTF-16 lengths coincide with character counts).
JavaScript floating point numbers are idealised as rationals (`ℚ`).
The regular-expression matching used by the extractors is embedded by a small
backtracking matcher specialised to the pattern shapes occurring in the source
(ordered alternation of case-insensitive literals, `\s+` / `\s*`, an optional
character, and a final greedy bounded capture of non-terminator characters).
The matcher recursions carry a fuel parameter that strictly dominates the
number of steps needed for the inputs in play; fuel exhaustion returns the
failure value.
-/

namespace MeetingIntelligence

/-- Character class of JavaScript `\s` restricted to the ASCII whitespace
characters (space, tab, line feed, carriage return, vertical tab, form feed). -/
def isWsChar (c : Char) : Bool :=
  c == ' ' || c == '\t' || c == '\n' || c == '\r' || c == '\x0b' || c == '\x0c'

/-- Lowercasing a character as JavaScript `toLowerCase` does on ASCII input. -/
def lowerChar (c : Char) : Char := c.toLower

/-- Lowercasing of a character list, modelling `String.prototype.toLowerCase`
on ASCII input. -/
def lowerList (l : List Char) : List Char := l.map lowerChar

/-- Test whether `s` starts with `p` (exact character equality). -/
def listStartsWith : List Char → List Char → Bool
  | _, [] => true
  | [], _ :: _ => false
  | c :: cs, p :: ps => c == p && listStartsWith cs ps

/-- Test whether `small` occurs contiguously inside `big`, modelling
`String.prototype.includes`. -/
def listContainsSub (small : List Char) : List Char → Bool
  | [] => small.isEmpty
  | c :: cs => listStartsWith (c :: cs) small || listContainsSub small cs

/-- Trimming of ASCII whitespace from both ends, modelling
`String.prototype.trim`. -/
def jsTrim (l : List Char) : List Char :=
  ((l.dropWhile isWsChar).reverse.dropWhile isWsChar).reverse

/-- Trim on `String`, modelling `String.prototype.trim`. -/
def jsTrimStr (s : String) : String := String.mk (jsTrim s.data)

/- Collapse every maximal run of whitespace characters into a single space.
Used to model `split(/\s+/)`: a regex split on `\s+` cuts at each maximal
whitespace run. -/
mutual

/-- Worker of the collapsing pass of the whitespace split: collapse the string,
replacing each maximal whitespace run by a single space. -/
def collapseWs : List Char → List Char
  | [] => []
  | c :: cs => if isWsChar c then ' ' :: skipWs cs else c :: collapseWs cs

/-- Skip the rest of a whitespace run, then continue collapsing. -/
def skipWs : List Char → List Char
  | [] => []
  | c :: cs => if isWsChar c then skipWs cs else c :: collapseWs cs

end

/-- Split on single whitespace separator characters, keeping empty segments,
as JavaScript `split` does once separator runs are collapsed. -/
def splitOnWsChar : List Char → List (List Char)
  | [] => [[]]
  | c :: cs =>
    if isWsChar c then [] :: splitOnWsChar cs
    else
      match splitOnWsChar cs with
      | t :: ts => (c :: t) :: ts
      | [] => [[c]]

/-- Model of JavaScript `text.split(/\s+/)`: empty segments survive at the two
ends (a leading separator yields a leading empty token, a trailing separator a
trailing empty token, and the empty string splits to one empty token). -/
def jsSplitWs (l : List Char) : List (List Char) :=
  splitOnWsChar (collapseWs l)

/-- Format of one related-note link line pushed by `findRelatedNotes`:
the basename wrapped in a wiki-link bullet. -/
def linkLine (basename : List Char) : List Char :=
  ("- [[".data) ++ basename ++ ("]]".data)

/-- Acceptance test of `findRelatedNotes` for one file basename: the lowercased
basename must have length at least 3 and some transcript token must contain it
or be contained in it (`w.includes(basename) || basename.includes(w)`). -/
def relatedAccepts (words : List (List Char)) (basenameLower : List Char) : Bool :=
  decide (3 ≤ basenameLower.length) &&
    words.any (fun w => listContainsSub basenameLower w || listContainsSub w basenameLower)

/-- Loop body of `findRelatedNotes` for one vault file: on acceptance, push
the wiki-link line unless the raw basename is already an element of the
accumulated list (the membership test of the source compares the unprefixed
basename against the stored prefixed lines). -/
def relatedStep (words : List (List Char)) (links : List (List Char))
    (file : List Char) : List (List Char) :=
  if relatedAccepts words (lowerList file) then
    if ¬ (links.contains file) then links ++ [linkLine file] else links
  else links

/-- Embedding of `findRelatedNotes` from `src/main.js`: tokenize the lowercased
transcript on whitespace, accept each known basename by the bidirectional
substring test, push the wiki-link line unless the raw basename is already an
element of the accumulated list, and keep the first 10 results. -/
def findRelatedNotes (files : List String) (text : String) : List String :=
  let words := jsSplitWs (lowerList text.data)
  let links := (files.map String.data).foldl (relatedStep words) []
  (links.take 10).map String.mk

/-- Elements of the regular-expression shapes used by the extractor patterns in
`src/main.js`. Every pattern there is a sequence of case-insensitive literal
alternations, whitespace quantifiers, an optional character, and one final
greedy capture group of non-terminator characters with length bounds. -/
inductive RElem : Type
  /-- Case-insensitive literal, for example `action item`. -/
  | lit (l : List Char)
  /-- Ordered alternation of case-insensitive literals, for example
  `(?:will|should|need to|must|has to|gonna)`. -/
  | alts (as : List (List Char))
  /-- Greedy `\s+`. -/
  | wsPlus
  /-- Greedy `\s*`. -/
  | wsStar
  /-- Greedy optional single character, for example `:?`. -/
  | optChar (c : Char)
  /-- Final greedy capture group over the class of non-terminator characters
  (any character other than `.`, `!`, `?`, line feed) with the given length
  bounds, for example `([^.!?\n]{10,100})`. -/
  | capture (lo hi : Nat)

/-- Characters admitted by the capture class `[^.!?\n]` of the source patterns. -/
def capChar (c : Char) : Bool :=
  !(c == '.' || c == '!' || c == '?' || c == '\n')

/-- Case-insensitive prefix test, modelling matching a literal under the `i`
regular-expression flag for ASCII input. -/
def ciStartsWith : List Char → List Char → Bool
  | _, [] => true
  | [], _ :: _ => false
  | c :: cs, p :: ps => lowerChar c == lowerChar p && ciStartsWith cs ps

/-- Length of the leading whitespace run of a character list. -/
def countWs (s : List Char) : Nat := (s.takeWhile isWsChar).length

mutual

/-- Backtracking match of a pattern element sequence against a prefix of `s`.
On success the remaining suffix after the whole match and the text of the
capture group are returned. Quantifiers are greedy with backtracking, matching
the JavaScript regular-expression engine; the capture group is the final
element of every source pattern, so nothing follows it. The `fuel` argument
strictly dominates the number of recursion steps for all inputs in play and
the failure value is returned if it runs out. -/
def matchElems : Nat → List RElem → List Char → Option (List Char × List Char)
  | 0, _, _ => none
  | _ + 1, [], s => some (s, [])
  | fuel + 1, RElem.lit l :: es, s =>
    if ciStartsWith s l then matchElems fuel es (s.drop l.length) else none
  | fuel + 1, RElem.alts as :: es, s => tryAlts fuel as es s
  | fuel + 1, RElem.wsPlus :: es, s => tryWs fuel (countWs s) 1 es s
  | fuel + 1, RElem.wsStar :: es, s => tryWs fuel (countWs s) 0 es s
  | fuel + 1, RElem.optChar c :: es, s =>
    match s with
    | [] => matchElems fuel es []
    | d :: ds =>
      if lowerChar d == lowerChar c then
        match matchElems fuel es ds with
        | some r => some r
        | none => matchElems fuel es (d :: ds)
      else matchElems fuel es (d :: ds)
  | _ + 1, RElem.capture lo hi :: _, s =>
    let t := (s.takeWhile capChar).take hi
    if lo ≤ t.length then some (s.drop t.length, t) else none

/-- Try the alternatives of an alternation in order; an alternative is kept
only if the rest of the pattern also matches, otherwise the next one is tried. -/
def tryAlts : Nat → List (List Char) → List RElem → List Char → Option (List Char × List Char)
  | 0, _, _, _ => none
  | _ + 1, [], _, _ => none
  | fuel + 1, a :: as, es, s =>
    if ciStartsWith s a then
      match matchElems fuel es (s.drop a.length) with
      | some r => some r
      | none => tryAlts fuel as es s
    else tryAlts fuel as es s

/-- Greedy whitespace quantifier: consume `j` whitespace characters, retrying
with one character fewer on failure, down to the minimum `lo` (1 for `\s+`,
0 for `\s*`). The initial `j` is the full leading whitespace run. -/
def tryWs : Nat → Nat → Nat → List RElem → List Char → Option (List Char × List Char)
  | 0, _, _, _, _ => none
  | fuel + 1, j, lo, es, s =>
    if j < lo then none
    else
      match matchElems fuel es (s.drop j) with
      | some r => some r
      | none => if j = 0 then none else tryWs fuel (j - 1) lo es s

end

/-- Fuel bound that dominates every recursion of `matchElems` on the pattern
shapes in play (at most 7 elements, alternations of at most 6 literals, and
whitespace runs bounded by the text length). -/
def innerFuel (s : List Char) : Nat := 40 * (s.length + 20)

/-- Model of `text.matchAll(pattern)` iteration for a global regular
expression: scan for the leftmost match, record its capture group, and resume
searching at the end of the match. The source patterns can never match the
empty string (each starts with a nonempty literal or alternation), so every
iteration advances; the outer fuel `s.length + 1` therefore suffices. -/
def matchAllCaps : Nat → List RElem → List Char → List (List Char)
  | 0, _, _ => []
  | fuel + 1, p, s =>
    match matchElems (innerFuel s) p s with
    | some (rest, capt) => capt :: matchAllCaps fuel p rest
    | none =>
      match s with
      | [] => []
      | _ :: cs => matchAllCaps fuel p cs

/-- Run one extractor pattern over the whole text, returning the capture groups
of all matches in document order. -/
def runPattern (p : List RElem) (s : List Char) : List (List Char) :=
  matchAllCaps (s.length + 1) p s

/-- The four action-item patterns of `extractActionItems`, in source order. -/
def actionPatterns : List (List RElem) :=
  [ [RElem.alts ["will".data, "should".data, "need to".data, "must".data,
      "has to".data, "gonna".data], RElem.wsPlus, RElem.capture 10 100],
    [RElem.lit "action item".data, RElem.optChar ':', RElem.wsStar, RElem.capture 1 1000000000],
    [RElem.lit "TODO".data, RElem.optChar ':', RElem.wsStar, RElem.capture 1 1000000000],
    [RElem.lit "[action]".data, RElem.optChar ':', RElem.wsStar, RElem.capture 1 1000000000] ]

/-- The three decision patterns of `extractDecisions`, in source order. -/
def decisionPatterns : List (List RElem) :=
  [ [RElem.alts ["we".data, "they".data, "team".data], RElem.wsPlus,
      RElem.alts ["decided".data, "agreed".data, "concluded".data], RElem.wsPlus,
      RElem.alts ["to".data, "that".data, "on".data], RElem.wsPlus,
      RElem.capture 10 150],
    [RElem.lit "decision".data, RElem.optChar ':', RElem.wsStar, RElem.capture 1 1000000000],
    [RElem.lit "agreed on".data, RElem.optChar ':', RElem.wsStar, RElem.capture 1 1000000000] ]

/-- Accumulation step shared by both extractors: for each capture group in
order, trim it, and when the trimmed item has length greater than 10 and the
accumulated list does not already contain the trimmed item itself, push the
item with the given rendering prefix. The membership test compares the
unprefixed trimmed text against the already prefixed stored entries, exactly
as the source does. -/
def pushMatches (pre : List Char) (acc : List (List Char)) (caps : List (List Char)) :
    List (List Char) :=
  caps.foldl
    (fun acc cap =>
      let item := jsTrim cap
      if 10 < item.length ∧ acc.contains item = false then acc ++ [pre ++ item] else acc)
    acc

/-- Collection pass of `extractActionItems` before the final cap of 10. -/
def collectActionItems (t : List Char) : List (List Char) :=
  actionPatterns.foldl (fun acc p => pushMatches "- [ ] ".data acc (runPattern p t)) []

/-- Embedding of `extractActionItems` from `src/main.js`. -/
def extractActionItems (text : String) : List String :=
  ((collectActionItems text.data).take 10).map String.mk

/-- Collection pass of `extractDecisions` before the final cap of 8. -/
def collectDecisions (t : List Char) : List (List Char) :=
  decisionPatterns.foldl (fun acc p => pushMatches "- ".data acc (runPattern p t)) []

/-- Embedding of `extractDecisions` from `src/main.js`. -/
def extractDecisions (text : String) : List String :=
  ((collectDecisions text.data).take 8).map String.mk

/-- Replace every occurrence of `pat` in `s` by `rep`, scanning left to right
and resuming after each replaced occurrence, modelling
`String.prototype.replace` with a global regular expression whose pattern is a
literal (as in the `\x7b\x7bdate\x7d\x7d` style placeholder substitutions). -/
def replaceAllListF (pat rep : List Char) : Nat → List Char → List Char
  | 0, _ => []
  | _ + 1, [] => []
  | fuel + 1, c :: cs =>
    if listStartsWith (c :: cs) pat = true ∧ pat ≠ [] then
      rep ++ replaceAllListF pat rep fuel ((c :: cs).drop pat.length)
    else c :: replaceAllListF pat rep fuel cs

/-- Entry point of the global replacement: every step of `replaceAllListF`
consumes at least one character of the scanned text (the source placeholder
patterns are nonempty), so fuel `s.length + 1` is never exhausted. -/
def replaceAllList (pat rep s : List Char) : List Char :=
  replaceAllListF pat rep (s.length + 1) s

/-- Replace the first occurrence of `pat` in `s` by `rep`, modelling
`String.prototype.replace` with a plain string pattern (used for the
section-anchor substitutions). When `pat` does not occur, `s` is returned
unchanged, as in JavaScript. -/
def replaceFirstList (pat rep : List Char) : List Char → List Char
  | [] => if pat.isEmpty then rep else []
  | c :: cs =>
    if listStartsWith (c :: cs) pat then rep ++ (c :: cs).drop pat.length
    else c :: replaceFirstList pat rep cs

/-- Replace-all on `String`. -/
def replaceAllStr (s pat rep : String) : String :=
  String.mk (replaceAllList pat.data rep.data s.data)

/-- Replace-first on `String`. -/
def replaceFirstStr (s pat rep : String) : String :=
  String.mk (replaceFirstList pat.data rep.data s.data)

/-- The `MEETING_TEMPLATE` constant of `src/main.js`, byte for byte. -/
def MEETING_TEMPLATE : String :=
  "---\ndate: {{date}}\ntime: {{time}}\nattendees: {{attendees}}\nduration: {{duration}}\ntags: meeting\n---\n\n# {{title}}\n\n## Attendees\n{{attendees}}\n\n## Agenda\n\n\n## Discussion\n{{transcription}}\n\n## Action Items\n- [ ]\n\n## Decisions Made\n\n\n## Follow-up Questions\n\n\n## Related Notes\n\n"

/-- Inputs of one transcription run that the source reads from the settings
object, the modal inputs, the filesystem and the subprocess. `execError` is
`some message` when the engine subprocess reported an error to its callback
(nonzero exit or spawn failure); `txtContent` is the raw content of the
transcript sidecar file, or `none` when the file is absent. -/
structure TranscriptionEnv where
  modelExists : Bool
  modelSize : String
  execError : Option String
  txtContent : Option String
  files : List String
  autoExtractActionItems : Bool
  autoDetectDecisions : Bool
  autoLinkNotes : Bool
  folder : String
  date : String
  time : String
  titleValue : String
  attendeesValue : String
  duration : String

/-- Composition of the note body performed by `createMeetingNote`: placeholder
substitution on `MEETING_TEMPLATE` in source order, then the three conditional
section-anchor replacements. The action-item anchor string carries the
trailing space present in the source call. -/
def composeContent (env : TranscriptionEnv) (transcription : String) : String :=
  let c := replaceAllStr MEETING_TEMPLATE "{{date}}" env.date
  let c := replaceAllStr c "{{time}}" env.time
  let c := replaceAllStr c "{{title}}" (jsTrimStr env.titleValue)
  let c := replaceAllStr c "{{attendees}}" (jsTrimStr env.attendeesValue)
  let c := replaceAllStr c "{{duration}}" env.duration
  let c := replaceAllStr c "{{transcription}}" transcription
  let c :=
    if env.autoExtractActionItems then
      let actionItems := extractActionItems transcription
      if actionItems.length > 0 then
        replaceFirstStr c "## Action Items\n- [ ] "
          ("## Action Items\n" ++ String.intercalate "\n" actionItems)
      else c
    else c
  let c :=
    if env.autoDetectDecisions then
      let decisions := extractDecisions transcription
      if decisions.length > 0 then
        replaceFirstStr c "## Decisions Made\n\n"
          ("## Decisions Made\n" ++ String.intercalate "\n" decisions ++ "\n\n")
      else c
    else c
  if env.autoLinkNotes then
    let links := findRelatedNotes env.files transcription
    if links.length > 0 then
      replaceFirstStr c "## Related Notes\n\n"
        ("## Related Notes\n" ++ String.intercalate "\n" links ++ "\n\n")
    else c
  else c

/-- Observable modal and session state tracked by the embedding: the UI fields
touched by `resetModal`, the notices raised, and the vault files created. -/
structure ModalState where
  recordButtonText : String
  recordButtonDisabled : Bool
  statusText : String
  titleDisabled : Bool
  attendeesDisabled : Bool
  transcribeVisible : Bool
  notices : List String
  createdNotes : List (String × String)

/-- Embedding of `resetModal` from `src/main.js`: re-enable the record button
with its start label, show the ready status, re-enable both inputs, and hide
the transcription progress container. -/
def resetModal (st : ModalState) : ModalState :=
  { st with
    recordButtonText := "▶ Start Meeting"
    recordButtonDisabled := false
    statusText := "Ready to start"
    titleDisabled := false
    attendeesDisabled := false
    transcribeVisible := false }

/-- Append a user-facing notice, modelling `new Notice(...)`. -/
def addNotice (st : ModalState) (msg : String) : ModalState :=
  { st with notices := st.notices ++ [msg] }

/-- Embedding of `createMeetingNote` from `src/main.js`: compose the body,
create the note file in the meeting notes folder, and raise the creation
notice. -/
def createMeetingNote (env : TranscriptionEnv) (transcription : String)
    (st : ModalState) : ModalState :=
  let content := composeContent env transcription
  let fileName := env.date ++ " - " ++ jsTrimStr env.titleValue ++ ".md"
  let filePath := env.folder ++ "/" ++ fileName
  addNotice { st with createdNotes := st.createdNotes ++ [(filePath, content)] }
    ("Meeting note created: " ++ fileName)

/-- Embedding of `transcribeAudio` from `src/main.js`, as a state transition on
the observable modal state. Showing the progress container happens first; a
missing model file or a subprocess error raises a notice and resets the modal
without composing anything; on success the transcript is the trimmed sidecar
content when the sidecar exists and the empty string otherwise, and the note
is composed and created. -/
def transcribeAudio (env : TranscriptionEnv) (st : ModalState) : ModalState :=
  let st1 := { st with transcribeVisible := true }
  if env.modelExists = false then
    resetModal (addNotice st1
      ("Model " ++ env.modelSize ++ " not found. Please download it in settings."))
  else
    match env.execError with
    | some msg => resetModal (addNotice st1 ("Transcription failed: " ++ msg))
    | none =>
      let transcription :=
        match env.txtContent with
        | some t => jsTrimStr t
        | none => ""
      createMeetingNote env transcription st1

/-- Rounding as JavaScript `Math.round` on nonnegative input: floor of the
value plus one half. Floating-point numbers are idealised as rationals. -/
def jsRound (q : ℚ) : ℤ := ⌊q + 1 / 2⌋

/-- Truncation toward zero, as JavaScript coercion of a number to an integer
(used when a value is stored into an `Int16Array`). -/
def jsTrunc (q : ℚ) : ℤ := if q < 0 then ⌈q⌉ else ⌊q⌋

/-- Array read with the out-of-range positions mapped to `0`; the safety
theorem below shows that `resample` only ever reads in range. -/
def qGet (data : List ℚ) (k : ℤ) : ℚ :=
  if k < 0 then 0 else data.getD k.toNat 0

/-- The `ratio` local of `resample`. -/
def resampleRatio (sourceSampleRate targetSampleRate : ℚ) : ℚ :=
  sourceSampleRate / targetSampleRate

/-- The `newLength` local of `resample`: `Math.round(audioData.length / ratio)`. -/
def resampleNewLength (n : ℕ) (ratio : ℚ) : ℕ :=
  (jsRound ((n : ℚ) / ratio)).toNat

/-- The `indexFloor` local of the interpolation loop of `resample`. -/
def srcIndexFloor (i : ℕ) (ratio : ℚ) : ℤ := ⌊(i : ℚ) * ratio⌋

/-- The `indexCeil` local of the interpolation loop of `resample`:
`Math.min(indexFloor + 1, audioData.length - 1)`. -/
def srcIndexCeil (n : ℕ) (i : ℕ) (ratio : ℚ) : ℤ :=
  min (srcIndexFloor i ratio + 1) ((n : ℤ) - 1)

/-- The general linear-interpolation path of `resample` (the code after the
identity shortcut): for each output index, interpolate between the floor and
ceil source neighbours by the fractional offset. -/
def resampleGeneral (audioData : List ℚ) (sourceSampleRate targetSampleRate : ℚ) :
    List ℚ :=
  let ratio := resampleRatio sourceSampleRate targetSampleRate
  (List.range (resampleNewLength audioData.length ratio)).map (fun i =>
    let indexFloor := srcIndexFloor i ratio
    let indexCeil := srcIndexCeil audioData.length i ratio
    let frac := (i : ℚ) * ratio - indexFloor
    qGet audioData indexFloor * (1 - frac) + qGet audioData indexCeil * frac)

/-- Embedding of `resample` from the `AudioConverter`: identity when the two
rates are equal, otherwise the general interpolation path. -/
def resample (audioData : List ℚ) (sourceSampleRate targetSampleRate : ℚ) : List ℚ :=
  if sourceSampleRate = targetSampleRate then audioData
  else resampleGeneral audioData sourceSampleRate targetSampleRate

/-- Conversion of one clamped float sample to a 16-bit integer, as in
`audioBufferToWav`: clamp to `[-1, 1]`, then scale negatives by `0x8000` and
non-negatives by `0x7FFF`. -/
def floatSampleToInt16 (s0 : ℚ) : ℤ :=
  let s := max (-1) (min 1 s0)
  jsTrunc (if s < 0 then s * 32768 else s * 32767)

/-- Little-endian bytes of a 16-bit unsigned value (wrapping modulo `2 ^ 16`). -/
def u16le (v : ℕ) : List ℕ := [v % 256, v / 256 % 256]

/-- Little-endian bytes of a 32-bit unsigned value (wrapping modulo `2 ^ 32`). -/
def u32le (v : ℕ) : List ℕ :=
  [v % 256, v / 256 % 256, v / 65536 % 256, v / 16777216 % 256]

/-- Little-endian bytes of a signed 16-bit sample stored by `setInt16`. -/
def i16le (v : ℤ) : List ℕ := u16le (v % 65536).toNat

/-- Byte values of an ASCII tag string written by `writeString`. -/
def asciiBytes (s : String) : List ℕ := s.data.map Char.toNat

/-- Embedding of `encodeWav` from the `AudioConverter`: the canonical 44-byte
RIFF/WAVE header followed by the 16-bit little-endian samples. All sizes are
computed exactly as in the source (`bytesPerSample = 2`). -/
def encodeWav (samples : List ℤ) (sampleRate numChannels : ℕ) : List ℕ :=
  let bytesPerSample := 2
  let blockAlign := numChannels * bytesPerSample
  let byteRate := sampleRate * blockAlign
  let dataSize := samples.length * bytesPerSample
  asciiBytes "RIFF" ++ u32le (36 + dataSize) ++ asciiBytes "WAVE" ++
    asciiBytes "fmt " ++ u32le 16 ++ u16le 1 ++ u16le numChannels ++
    u32le sampleRate ++ u32le byteRate ++ u16le blockAlign ++ u16le 16 ++
    asciiBytes "data" ++ u32le dataSize ++ samples.flatMap i16le

/-- Embedding of the mono encode pipeline of `audioBufferToWav`: resample to
the fixed 16000 Hz target, quantize each sample to 16 bits, and serialize with
`encodeWav` at sample rate 16000, one channel. -/
def audioBufferToWav (audioData : List ℚ) (sourceRate : ℚ) : List ℕ :=
  let resampledData := resample audioData sourceRate 16000
  let int16Data := resampledData.map floatSampleToInt16
  encodeWav int16Data 16000 1

/-- Read a 32-bit little-endian value at byte offset `k` of a buffer, as
`DataView.getUint32(k, true)` would. -/
def readU32LE (b : List ℕ) (k : ℕ) : ℕ :=
  match b.drop k with
  | b0 :: b1 :: b2 :: b3 :: _ => b0 + 256 * (b1 + 256 * (b2 + 256 * b3))
  | _ => 0

/-- Output length demanded by the specification for the encode pipeline:
`round(inputLength * 16000 / R)` samples. -/
def specOutLen (n : ℕ) (r : ℚ) : ℕ := (jsRound ((n : ℚ) * 16000 / r)).toNat

/-! ### Theorems for the claims -/

/-- C1. The de-duplication in `extractActionItems` and `extractDecisions`
compares the bare trimmed match against the already prefixed stored lines, so
it never fires: a transcript with a trigger phrase followed by identical text
repeated verbatim twice yields two textually identical entries, not one. This
theorem evaluates both extractors at such failing inputs. -/
theorem c1_dedup_fails_on_repeated_trigger :
    extractActionItems
        "We will review the quarterly numbers today. We will review the quarterly numbers today." =
      ["- [ ] review the quarterly numbers today",
        "- [ ] review the quarterly numbers today"] ∧
    extractDecisions
        "We decided to ship the new feature. We decided to ship the new feature." =
      ["- ship the new feature", "- ship the new feature"] := by
  constructor <;> decide

/-- C4. Both extractors are total functions whose results are capped by a final
`slice`: action items never exceed 10 entries and decisions never exceed 8,
for every input text; the excess is dropped by the `take`, with no error
path. -/
theorem c4_extraction_caps (text : String) :
    (extractActionItems text).length ≤ 10 ∧
      (extractDecisions text).length ≤ 8 ∧
      extractActionItems text = ((collectActionItems text.data).take 10).map String.mk ∧
      extractDecisions text = ((collectDecisions text.data).take 8).map String.mk := by
  refine ⟨?_, ?_, rfl, rfl⟩ <;>
    simp [extractActionItems, extractDecisions, List.length_take]

/-- C5. Whenever the engine subprocess reports an error (nonzero exit or spawn
failure), `transcribeAudio` raises only the failure notice, creates no note,
and resets the modal to its pre-recording ready state: record button enabled
with the start label, status `Ready to start`, both inputs enabled, and the
progress container hidden. -/
theorem c5_engine_failure_resets (env : TranscriptionEnv) (st : ModalState)
    (msg : String) (hm : env.modelExists = true) (he : env.execError = some msg) :
    (transcribeAudio env st).createdNotes = st.createdNotes ∧
    (transcribeAudio env st).notices = st.notices ++ ["Transcription failed: " ++ msg] ∧
    (transcribeAudio env st).recordButtonText = "▶ Start Meeting" ∧
    (transcribeAudio env st).recordButtonDisabled = false ∧
    (transcribeAudio env st).statusText = "Ready to start" ∧
    (transcribeAudio env st).titleDisabled = false ∧
    (transcribeAudio env st).attendeesDisabled = false ∧
    (transcribeAudio env st).transcribeVisible = false := by
  simp [transcribeAudio, hm, he, resetModal, addNotice]

/-- Witness for C5 at a concrete environment and state. -/
theorem c5_engine_failure_resets_witness :
    ({ modelExists := true, modelSize := "base", execError := some "exit 1",
        txtContent := none, files := [], autoExtractActionItems := true,
        autoDetectDecisions := true, autoLinkNotes := true, folder := "Meetings",
        date := "2026-01-15", time := "10:00", titleValue := "Standup",
        attendeesValue := "", duration := "00:00:30" } : TranscriptionEnv).modelExists
        = true ∧
    (transcribeAudio
        { modelExists := true, modelSize := "base", execError := some "exit 1",
          txtContent := none, files := [], autoExtractActionItems := true,
          autoDetectDecisions := true, autoLinkNotes := true, folder := "Meetings",
          date := "2026-01-15", time := "10:00", titleValue := "Standup",
          attendeesValue := "", duration := "00:00:30" }
        { recordButtonText := "Processing...", recordButtonDisabled := true,
          statusText := "Processing recording...", titleDisabled := true,
          attendeesDisabled := true, transcribeVisible := true, notices := [],
          createdNotes := [] }).createdNotes = [] := by
  refine ⟨rfl, ?_⟩
  have h := c5_engine_failure_resets
    { modelExists := true, modelSize := "base", execError := some "exit 1",
      txtContent := none, files := [], autoExtractActionItems := true,
      autoDetectDecisions := true, autoLinkNotes := true, folder := "Meetings",
      date := "2026-01-15", time := "10:00", titleValue := "Standup",
      attendeesValue := "", duration := "00:00:30" }
    { recordButtonText := "Processing...", recordButtonDisabled := true,
      statusText := "Processing recording...", titleDisabled := true,
      attendeesDisabled := true, transcribeVisible := true, notices := [],
      createdNotes := [] } "exit 1" rfl rfl
  exact h.1

/-- C6. The acceptance test of `findRelatedNotes` holds exactly when the
lowercased basename has length at least 3 and some whitespace token of the
lowercased transcript contains it or is contained in it; concretely, the known
title `Alpha` is referenced by a transcript containing the token `alphabet`,
while the 2-character title `Q4` is never referenced even when present
verbatim. -/
theorem c6_related_notes_matching :
    (∀ (words : List (List Char)) (bn : List Char),
        relatedAccepts words (lowerList bn) = true ↔
          3 ≤ bn.length ∧ ∃ w ∈ words,
            listContainsSub (lowerList bn) w = true ∨
              listContainsSub w (lowerList bn) = true) ∧
    findRelatedNotes ["Alpha"] "the alphabet grows" = ["- [[Alpha]]"] ∧
    findRelatedNotes ["Q4"] "Q4 results reviewed" = [] := by
  refine ⟨fun words bn => ?_, by decide, by decide⟩
  simp [relatedAccepts, lowerList, List.any_eq_true]

/-- C8. When the source rate equals the 16000 Hz target the shortcut branch of
`resample` is the identity on sample values, and the general
linear-interpolation path computes the same identity at ratio 1: its output at
each index equals the input at that index. -/
theorem c8_resample_identity_agreement (audioData : List ℚ) :
    resample audioData 16000 16000 = audioData ∧
      resampleGeneral audioData 16000 16000 = audioData := by
  have hratio : resampleRatio 16000 16000 = 1 := by norm_num [resampleRatio]
  constructor
  · simp [resample]
  · have hlen : resampleNewLength audioData.length 1 = audioData.length := by
      simp [resampleNewLength, jsRound]
      norm_num
    refine List.ext_getElem ?_ ?_
    · simp [resampleGeneral, hratio, hlen]
    · intro i h1 h2
      simp only [resampleGeneral, hratio, hlen] at h1 ⊢
      have hi : i < audioData.length := by simpa using h1
      simp [srcIndexFloor, srcIndexCeil, qGet, List.getD_eq_getElem?_getD,
        List.getElem?_eq_getElem hi]

/-- The transcript of the end-to-end scenario of the specification. -/
def scenarioTranscript : String :=
  "John will prepare the report by Friday. We decided to launch next month."

/-- Environment of the end-to-end scenario: all extraction features enabled
(the defaults), an empty vault corpus, and fixed metadata. -/
def scenarioEnv : TranscriptionEnv :=
  { modelExists := true, modelSize := "base", execError := none,
    txtContent := some scenarioTranscript, files := [],
    autoExtractActionItems := true, autoDetectDecisions := true,
    autoLinkNotes := true, folder := "Meetings", date := "2026-01-15",
    time := "10:00", titleValue := "Standup", attendeesValue := "John, Sarah",
    duration := "00:00:30" }

set_option maxRecDepth 100000 in
/-- C2. On the scenario transcript the extractors return exactly the specified
lists and the composed document carries the decision under the Decisions Made
section and the literal transcript under the Discussion section — but the
action item is absent from the document: the replacement anchor
`## Action Items\n- [ ] ` carries a trailing space that the template line
`- [ ]` does not have, so the action-item splice never fires and the document
retains the empty checkbox placeholder. -/
theorem c2_scenario_composition :
    extractActionItems scenarioTranscript = ["- [ ] prepare the report by Friday"] ∧
    extractDecisions scenarioTranscript = ["- launch next month"] ∧
    listContainsSub ("## Decisions Made\n- launch next month\n\n").data
      (composeContent scenarioEnv scenarioTranscript).data = true ∧
    listContainsSub ("## Discussion\n" ++ scenarioTranscript ++ "\n\n## Action Items").data
      (composeContent scenarioEnv scenarioTranscript).data = true ∧
    listContainsSub ("- [ ] prepare the report by Friday").data
      (composeContent scenarioEnv scenarioTranscript).data = false ∧
    listContainsSub ("## Action Items\n- [ ]\n\n## Decisions Made").data
      (composeContent scenarioEnv scenarioTranscript).data = true := by
  refine ⟨by decide, by decide, by decide, by decide, by decide, by decide⟩

/-- C10. The interpolation loop of `resample` never reads out of bounds: for
every input array and positive source and target rates, at every index `i` of
the output range both `indexFloor` and `indexCeil` lie within
`[0, inputLength - 1]`. -/
theorem c10_resample_index_safety (audioData : List ℚ) (src tgt : ℚ)
    (hs : 0 < src) (ht : 0 < tgt) (i : ℕ)
    (hi : i < resampleNewLength audioData.length (resampleRatio src tgt)) :
    0 ≤ srcIndexFloor i (resampleRatio src tgt) ∧
    srcIndexFloor i (resampleRatio src tgt) ≤ (audioData.length : ℤ) - 1 ∧
    0 ≤ srcIndexCeil audioData.length i (resampleRatio src tgt) ∧
    srcIndexCeil audioData.length i (resampleRatio src tgt) ≤ (audioData.length : ℤ) - 1 := by
  set n := audioData.length with hn
  set ratio := resampleRatio src tgt with hr
  have hratio : 0 < ratio := div_pos hs ht
  have hfloor : (i : ℤ) < jsRound ((n : ℚ) / ratio) := by
    have := hi
    unfold resampleNewLength at this
    omega
  have hiq : (i : ℚ) < (n : ℚ) / ratio := by
    have h1 : ((i : ℤ) : ℚ) + 1 ≤ (jsRound ((n : ℚ) / ratio) : ℚ) := by
      exact_mod_cast hfloor
    have h2 : (jsRound ((n : ℚ) / ratio) : ℚ) ≤ (n : ℚ) / ratio + 1 / 2 := by
      unfold jsRound
      exact Int.floor_le _
    push_cast at h1
    linarith
  have hmul : (i : ℚ) * ratio < (n : ℚ) := by
    calc (i : ℚ) * ratio < ((n : ℚ) / ratio) * ratio :=
          mul_lt_mul_of_pos_right hiq hratio
      _ = (n : ℚ) := div_mul_cancel₀ _ (ne_of_gt hratio)
  have hnn : (0 : ℚ) ≤ (i : ℚ) * ratio := by positivity
  have hfl0 : 0 ≤ srcIndexFloor i ratio := by
    unfold srcIndexFloor
    exact Int.le_floor.mpr (by exact_mod_cast hnn)
  have hfl1 : srcIndexFloor i ratio ≤ (n : ℤ) - 1 := by
    unfold srcIndexFloor
    have : ⌊(i : ℚ) * ratio⌋ < (n : ℤ) := Int.floor_lt.mpr (by exact_mod_cast hmul)
    omega
  have hnpos : 1 ≤ (n : ℤ) := by
    rcases Nat.eq_zero_or_pos n with h0 | hpos
    · exfalso
      have : (n : ℚ) = 0 := by exact_mod_cast h0
      rw [this] at hmul
      linarith
    · exact_mod_cast hpos
  refine ⟨hfl0, hfl1, ?_, ?_⟩
  · unfold srcIndexCeil
    exact le_min (by omega) (by omega)
  · unfold srcIndexCeil
    exact min_le_right _ _

/-- Witness for C10 at input length 4, source rate 2, target rate 1, output
index 1: the output range is `round(4 / 2) = 2`, `indexFloor = 2` and
`indexCeil = 3` both lie within `[0, 3]`. -/
theorem c10_resample_index_safety_witness :
    (0 : ℚ) < 2 ∧ (0 : ℚ) < 1 ∧
      1 < resampleNewLength ([0, 0, 0, (0 : ℚ)]).length (resampleRatio 2 1) ∧
      (0 ≤ srcIndexFloor 1 (resampleRatio 2 1) ∧
        srcIndexFloor 1 (resampleRatio 2 1) ≤ (([0, 0, 0, (0 : ℚ)]).length : ℤ) - 1 ∧
        0 ≤ srcIndexCeil ([0, 0, 0, (0 : ℚ)]).length 1 (resampleRatio 2 1) ∧
        srcIndexCeil ([0, 0, 0, (0 : ℚ)]).length 1 (resampleRatio 2 1) ≤
          (([0, 0, 0, (0 : ℚ)]).length : ℤ) - 1) := by
  refine ⟨by norm_num, by norm_num, ?_, ?_⟩
  · show 1 < resampleNewLength 4 (resampleRatio 2 1)
    norm_num [resampleNewLength, resampleRatio, jsRound]
  · exact c10_resample_index_safety [0, 0, 0, 0] 2 1 (by norm_num) (by norm_num) 1
      (by norm_num [resampleNewLength, resampleRatio, jsRound])


/-- Each 16-bit sample contributes exactly two bytes to the payload. -/
theorem length_flatMap_i16le (l : List ℤ) : (l.flatMap i16le).length = 2 * l.length := by
  induction l with
  | nil => rfl
  | cons v vs ih => simp [List.flatMap_cons, i16le, u16le, ih]; ring

/-- Byte length of the encoder output: the 44-byte header plus two bytes per
sample. -/
theorem encodeWav_length (samples : List ℤ) :
    (encodeWav samples 16000 1).length = 44 + 2 * samples.length := by
  have h : (encodeWav samples 16000 1).length = (samples.flatMap i16le).length + 44 := rfl
  rw [h, length_flatMap_i16le]
  ring

/-- Output length of `resample` toward the fixed 16000 Hz target, expressed in
the form demanded by the specification. The identity branch and the general
branch both produce `round(n * 16000 / r)` samples. -/
theorem resample_length_spec (data : List ℚ) (r : ℚ) :
    (resample data r 16000).length = specOutLen data.length r := by
  unfold resample
  split
  · rename_i h
    subst h
    unfold specOutLen jsRound
    have h16 : ((data.length : ℚ)) * 16000 / 16000 = (data.length : ℚ) := by
      norm_num
    rw [h16]
    simp
    norm_num
  · unfold resampleGeneral specOutLen resampleNewLength resampleRatio
    rw [List.length_map, List.length_range]
    rw [div_div_eq_mul_div]

/-- C3. For every input array and positive source rate, the encode pipeline
(`resample` to 16000 Hz, quantize, `encodeWav`) produces a buffer whose header
sample-rate field at byte offset 24 is 16000 regardless of the source rate,
whose `dataSize` field at byte offset 40 exactly equals the payload byte
length, and whose payload byte length is `round(inputLength * 16000 / R) * 2`.
The size hypothesis keeps the 32-bit `dataSize` field from wrapping. -/
theorem c3_encode_header_fields (data : List ℚ) (r : ℚ) (_hr : 0 < r)
    (hsz : 2 * specOutLen data.length r < 2 ^ 32) :
    readU32LE (audioBufferToWav data r) 24 = 16000 ∧
    readU32LE (audioBufferToWav data r) 40 = (audioBufferToWav data r).length - 44 ∧
    (audioBufferToWav data r).length = 44 + 2 * specOutLen data.length r := by
  have hpipe : audioBufferToWav data r =
      encodeWav ((resample data r 16000).map floatSampleToInt16) 16000 1 := rfl
  have hslen : ((resample data r 16000).map floatSampleToInt16).length =
      specOutLen data.length r := by
    rw [List.length_map, resample_length_spec]
  have h24 : ∀ samples : List ℤ, readU32LE (encodeWav samples 16000 1) 24 = 16000 :=
    fun _ => rfl
  have h40 : ∀ samples : List ℤ, readU32LE (encodeWav samples 16000 1) 40 =
      samples.length * 2 % 256 + 256 * (samples.length * 2 / 256 % 256 +
        256 * (samples.length * 2 / 65536 % 256 +
          256 * (samples.length * 2 / 16777216 % 256))) :=
    fun _ => rfl
  refine ⟨by rw [hpipe]; exact h24 _, ?_, ?_⟩
  · rw [hpipe, h40, encodeWav_length, hslen]
    omega
  · rw [hpipe, encodeWav_length, hslen]

/-- Witness for C3 at a three-sample input and source rate 44100: the output
length is `round(3 * 16000 / 44100) = 1` sample, hence 2 payload bytes. -/
theorem c3_encode_header_fields_witness :
    (0 : ℚ) < 44100 ∧
      2 * specOutLen ([0, 0, (0 : ℚ)]).length 44100 < 2 ^ 32 ∧
      (readU32LE (audioBufferToWav [0, 0, (0 : ℚ)] 44100) 24 = 16000 ∧
        readU32LE (audioBufferToWav [0, 0, (0 : ℚ)] 44100) 40 =
          (audioBufferToWav [0, 0, (0 : ℚ)] 44100).length - 44 ∧
        (audioBufferToWav [0, 0, (0 : ℚ)] 44100).length =
          44 + 2 * specOutLen ([0, 0, (0 : ℚ)]).length 44100) := by
  have hspec : specOutLen ([0, 0, (0 : ℚ)]).length 44100 = 1 := by
    norm_num [specOutLen, jsRound]
  refine ⟨by norm_num, by rw [hspec]; norm_num,
    c3_encode_header_fields [0, 0, 0] 44100 (by norm_num) (by rw [hspec]; norm_num)⟩


/-- Environment of a run whose engine subprocess succeeded but whose transcript
sidecar file is absent. -/
def missingSidecarEnv : TranscriptionEnv :=
  { modelExists := true, modelSize := "base", execError := none,
    txtContent := none, files := [], autoExtractActionItems := true,
    autoDetectDecisions := true, autoLinkNotes := true, folder := "Meetings",
    date := "2026-01-15", time := "10:00", titleValue := "Standup",
    attendeesValue := "John, Sarah", duration := "00:00:30" }

/-- Modal state at the moment `transcribeAudio` is entered. -/
def processingState : ModalState :=
  { recordButtonText := "Processing...", recordButtonDisabled := true,
    statusText := "Processing recording...", titleDisabled := true,
    attendeesDisabled := true, transcribeVisible := true, notices := [],
    createdNotes := [] }

/-- C7 counterexample. When the engine exits successfully but the sidecar
transcript file is absent, the run raises exactly one notice — the standard
note-creation notice — so no warning about the missing transcript is surfaced,
contrary to the claim. The note is still created. -/
theorem c7_no_warning_raised_counterexample :
    (transcribeAudio missingSidecarEnv processingState).notices =
      ["Meeting note created: 2026-01-15 - Standup.md"] ∧
    (transcribeAudio missingSidecarEnv processingState).createdNotes.length = 1 := by
  constructor <;> decide

/-- C7 amended. When the engine subprocess exits successfully but the sidecar
transcript file is absent, the pipeline treats the transcript as the empty
string and proceeds to compose and create a note from it; the only notice
raised is the standard creation notice, with no warning of any kind. -/
theorem c7_missing_sidecar_behaviour (env : TranscriptionEnv) (st : ModalState)
    (hm : env.modelExists = true) (he : env.execError = none)
    (ht : env.txtContent = none) :
    (transcribeAudio env st).createdNotes = st.createdNotes ++
      [(env.folder ++ "/" ++ (env.date ++ " - " ++ jsTrimStr env.titleValue ++ ".md"),
        composeContent env "")] ∧
    (transcribeAudio env st).notices = st.notices ++
      ["Meeting note created: " ++
        (env.date ++ " - " ++ jsTrimStr env.titleValue ++ ".md")] := by
  simp [transcribeAudio, hm, he, ht, createMeetingNote, addNotice]

set_option maxRecDepth 100000 in
/-- Witness for C7 at the concrete missing-sidecar run, together with the
observation that the composed note has an empty Discussion section. -/
theorem c7_missing_sidecar_behaviour_witness :
    missingSidecarEnv.modelExists = true ∧ missingSidecarEnv.execError = none ∧
    missingSidecarEnv.txtContent = none ∧
    ((transcribeAudio missingSidecarEnv processingState).createdNotes =
        processingState.createdNotes ++
          [(missingSidecarEnv.folder ++ "/" ++ (missingSidecarEnv.date ++ " - " ++
              jsTrimStr missingSidecarEnv.titleValue ++ ".md"),
            composeContent missingSidecarEnv "")] ∧
      (transcribeAudio missingSidecarEnv processingState).notices =
        processingState.notices ++
          ["Meeting note created: " ++ (missingSidecarEnv.date ++ " - " ++
            jsTrimStr missingSidecarEnv.titleValue ++ ".md")]) ∧
    listContainsSub ("## Discussion\n\n\n## Action Items").data
      (composeContent missingSidecarEnv "").data = true := by
  exact ⟨rfl, rfl, rfl,
    c7_missing_sidecar_behaviour missingSidecarEnv processingState rfl rfl rfl,
    by decide⟩


/-! ### Supporting lemmas for the empty-token behaviour of `findRelatedNotes` -/

/-- Splitting never produces the empty list of tokens. -/
theorem splitOnWsChar_ne_nil (m : List Char) : splitOnWsChar m ≠ [] := by
  cases m with
  | nil => simp [splitOnWsChar]
  | cons c cs =>
    by_cases h : isWsChar c
    · simp [splitOnWsChar, h]
    · simp only [splitOnWsChar, h]
      cases hs : splitOnWsChar cs <;> simp

/-- Collapsing whitespace never erases a nonempty string. -/
theorem collapseWs_ne_nil (c : Char) (cs : List Char) : collapseWs (c :: cs) ≠ [] := by
  by_cases h : isWsChar c <;> simp [collapseWs, h]

/-- The only string splitting to the single empty token is the empty string. -/
theorem splitOnWsChar_eq_single_nil (m : List Char)
    (h : splitOnWsChar m = [[]]) : m = [] := by
  cases m with
  | nil => rfl
  | cons c cs =>
    exfalso
    by_cases hc : isWsChar c
    · simp only [splitOnWsChar, hc, if_pos] at h
      have := splitOnWsChar_ne_nil cs
      simp only [List.cons.injEq] at h
      exact this h.2
    · simp only [splitOnWsChar, hc] at h
      rcases hs : splitOnWsChar cs with _ | ⟨t, ts⟩
      · exact splitOnWsChar_ne_nil cs hs
      · rw [hs] at h
        simp at h

/-- An element reported by `getLast?` is a member of the list. -/
theorem mem_of_getLast?_eq {α : Type} {l : List α} {a : α}
    (h : l.getLast? = some a) : a ∈ l := by
  induction l with
  | nil => simp at h
  | cons b bs ih =>
    cases bs with
    | nil =>
      simp only [List.getLast?_singleton, Option.some.injEq] at h
      simp [h]
    | cons c cs =>
      rw [List.getLast?_cons_cons] at h
      exact List.mem_cons_of_mem b (ih h)

/-- Lowercasing preserves the whitespace class (ASCII letters are not
whitespace, and whitespace characters are fixed by `toLower`). -/
theorem isWsChar_lowerChar {c : Char} (h : isWsChar c = true) :
    isWsChar (lowerChar c) = true := by
  have : c = ' ' ∨ c = '\t' ∨ c = '\n' ∨ c = '\r' ∨ c = '\x0b' ∨ c = '\x0c' := by
    simp only [isWsChar, Bool.or_eq_true, beq_iff_eq] at h
    tauto
  rcases this with h | h | h | h | h | h <;> subst h <;> decide

/-- Prepending a non-whitespace character to a nonempty string preserves the
property that the final token of the split is empty. -/
theorem splitOnWsChar_cons_getLast {c : Char} (hc : isWsChar c = false)
    {X : List Char} (hX : X ≠ [])
    (h : (splitOnWsChar X).getLast? = some []) :
    (splitOnWsChar (c :: X)).getLast? = some [] := by
  rcases hs : splitOnWsChar X with _ | ⟨t0, ts⟩
  · exact absurd hs (splitOnWsChar_ne_nil X)
  · have hcons : splitOnWsChar (c :: X) = (c :: t0) :: ts := by
      simp [splitOnWsChar, hc, hs]
    rw [hcons]
    cases ts with
    | nil =>
      exfalso
      rw [hs] at h
      simp only [List.getLast?_singleton, Option.some.injEq] at h
      subst h
      exact hX (splitOnWsChar_eq_single_nil X hs)
    | cons u us =>
      rw [List.getLast?_cons_cons]
      rw [hs, List.getLast?_cons_cons] at h
      exact h

/-- When a string ends in a whitespace character, the final token of its
whitespace split is the empty token. The statement is proved simultaneously
for the two mutually recursive collapsing passes. -/
theorem trailingWs_getLast (m : List Char) :
    ((∃ c, m.getLast? = some c ∧ isWsChar c = true) →
        (splitOnWsChar (collapseWs m)).getLast? = some []) ∧
      ((∃ c, m.getLast? = some c ∧ isWsChar c = true) →
        (splitOnWsChar (skipWs m)).getLast? = some []) := by
  induction m with
  | nil => constructor <;> rintro ⟨c, hc, -⟩ <;> simp at hc
  | cons c cs ih =>
    have hlast : cs ≠ [] →
        (∃ d, (c :: cs).getLast? = some d ∧ isWsChar d = true) →
        ∃ d, cs.getLast? = some d ∧ isWsChar d = true := by
      rintro hne ⟨d, hd, hw⟩
      refine ⟨d, ?_, hw⟩
      rcases cs with _ | ⟨e, es⟩
      · exact absurd rfl hne
      · rw [List.getLast?_cons_cons] at hd
        exact hd
    constructor
    · rintro hprem
      by_cases hc : isWsChar c
      · have hcol : collapseWs (c :: cs) = ' ' :: skipWs cs := by
          simp [collapseWs, hc]
        rw [hcol]
        have hsplit : splitOnWsChar (' ' :: skipWs cs) =
            [] :: splitOnWsChar (skipWs cs) := rfl
        rw [hsplit]
        rcases cs with _ | ⟨e, es⟩
        · simp [skipWs, splitOnWsChar]
        · have h2 := ih.2 (hlast (by simp) hprem)
          rcases ht : splitOnWsChar (skipWs (e :: es)) with _ | ⟨u, us⟩
          · exact absurd ht (splitOnWsChar_ne_nil _)
          · rw [ht] at h2
            rw [List.getLast?_cons_cons]
            exact h2
      · have hcol : collapseWs (c :: cs) = c :: collapseWs cs := by
          simp [collapseWs, hc]
        rw [hcol]
        have hcs : cs ≠ [] := by
          rintro rfl
          rcases hprem with ⟨d, hd, hw⟩
          simp only [List.getLast?_singleton, Option.some.injEq] at hd
          subst hd
          rw [hw] at hc
          exact hc rfl
        have h1 := ih.1 (hlast hcs hprem)
        refine splitOnWsChar_cons_getLast (by simpa using hc) ?_ h1
        rcases cs with _ | ⟨e, es⟩
        · exact absurd rfl hcs
        · exact collapseWs_ne_nil e es
    · rintro hprem
      by_cases hc : isWsChar c
      · have hcol : skipWs (c :: cs) = skipWs cs := by
          simp [skipWs, hc]
        rw [hcol]
        rcases cs with _ | ⟨e, es⟩
        · simp [skipWs, splitOnWsChar]
        · exact ih.2 (hlast (by simp) hprem)
      · have hcol : skipWs (c :: cs) = c :: collapseWs cs := by
          simp [skipWs, hc]
        rw [hcol]
        have hcs : cs ≠ [] := by
          rintro rfl
          rcases hprem with ⟨d, hd, hw⟩
          simp only [List.getLast?_singleton, Option.some.injEq] at hd
          subst hd
          rw [hw] at hc
          exact hc rfl
        have h1 := ih.1 (hlast hcs hprem)
        refine splitOnWsChar_cons_getLast (by simpa using hc) ?_ h1
        rcases cs with _ | ⟨e, es⟩
        · exact absurd rfl hcs
        · exact collapseWs_ne_nil e es

/-- A transcript that is empty, starts with whitespace, or ends with
whitespace contributes an empty token to the whitespace split of its
lowercasing. -/
theorem empty_token_mem (text : List Char)
    (h : text = [] ∨ (∃ c, text.head? = some c ∧ isWsChar c = true) ∨
      (∃ c, text.getLast? = some c ∧ isWsChar c = true)) :
    [] ∈ jsSplitWs (lowerList text) := by
  rcases h with rfl | ⟨c, hc, hw⟩ | ⟨c, hc, hw⟩
  · simp [jsSplitWs, lowerList, collapseWs, splitOnWsChar]
  · rcases text with _ | ⟨d, ds⟩
    · simp at hc
    · have hdc : d = c := by simpa using hc
      have hld : isWsChar (lowerChar d) = true := by
        rw [hdc]
        exact isWsChar_lowerChar hw
      simp only [jsSplitWs, lowerList, List.map_cons]
      rw [show collapseWs (lowerChar d :: List.map lowerChar ds) =
          ' ' :: skipWs (List.map lowerChar ds) by simp [collapseWs, hld]]
      exact List.mem_cons_self _ _
  · have hlow : (lowerList text).getLast? = some (lowerChar c) := by
      unfold lowerList
      rw [List.getLast?_map]
      rw [hc]
      rfl
    have := (trailingWs_getLast (lowerList text)).1
      ⟨lowerChar c, hlow, isWsChar_lowerChar hw⟩
    exact mem_of_getLast?_eq this

/-- The empty substring is contained in every string. -/
theorem listContainsSub_nil (big : List Char) : listContainsSub [] big = true := by
  cases big <;> simp [listContainsSub, listStartsWith, List.isEmpty]

/-- In the presence of an empty transcript token the acceptance test of
`findRelatedNotes` degenerates to the pure length floor. -/
theorem relatedAccepts_of_empty_token (words : List (List Char))
    (hmem : [] ∈ words) (bl : List Char) :
    relatedAccepts words bl = decide (3 ≤ bl.length) := by
  unfold relatedAccepts
  cases h3 : decide (3 ≤ bl.length)
  · simp
  · simp only [Bool.true_and]
    rw [List.any_eq_true]
    exact ⟨[], hmem, by simp [listContainsSub_nil]⟩

/-- Fold behaviour of `findRelatedNotes` when every token-acceptance test
degenerates to the length floor: provided no basename is already in the
accumulator and no basename equals the link line pushed for an earlier
basename of length at least 3, every basename of length at least 3 is pushed,
in corpus order. -/
theorem relatedFold_of_degenerate (words : List (List Char))
    (hacc : ∀ bl, relatedAccepts words bl = decide (3 ≤ bl.length)) :
    ∀ (files : List String) (acc : List (List Char)),
      (∀ f ∈ files, f.data ∉ acc) →
      List.Pairwise (fun g f => 3 ≤ g.length → f.data ≠ linkLine g.data) files →
      (files.map String.data).foldl (relatedStep words) acc =
        acc ++ ((files.filter fun f => 3 ≤ f.length).map fun f => linkLine f.data) := by
  intro files
  induction files with
  | nil => intro acc _ _; simp
  | cons f fs ih =>
    intro acc hnotin hpw
    rw [List.pairwise_cons] at hpw
    simp only [List.map_cons, List.foldl_cons]
    have hstep : relatedStep words acc f.data =
        if 3 ≤ f.length then acc ++ [linkLine f.data] else acc := by
      unfold relatedStep
      rw [hacc]
      have hlen : (lowerList f.data).length = f.length := by
        simp only [lowerList, List.length_map]
        rfl
      rw [hlen]
      by_cases h3 : 3 ≤ f.length
      · have hnotmem : f.data ∉ acc := hnotin f (List.mem_cons_self f fs)
        simp [h3, hnotmem]
      · simp [h3]
    rw [hstep]
    by_cases h3 : 3 ≤ f.length
    · simp only [h3, if_true]
      rw [ih (acc ++ [linkLine f.data])
        (by
          intro g hg hmem
          rcases List.mem_append.mp hmem with hga | hgl
          · exact hnotin g (List.mem_cons_of_mem f hg) hga
          · exact hpw.1 g hg h3 (List.mem_singleton.mp hgl))
        hpw.2]
      simp [List.filter_cons, h3]
    · simp only [h3, if_false]
      rw [ih acc (fun g hg => hnotin g (List.mem_cons_of_mem f hg)) hpw.2]
      simp [List.filter_cons, h3]


/-- C9 counterexample. The membership guard of `findRelatedNotes` compares raw
basenames against the stored prefixed link lines, so a vault whose basenames
collide with link lines loses references: with corpus
`["abc", "- [[abc]]"]` and the empty transcript, the second file (length 9,
hence above the floor, and matched by the empty token) is never reported. -/
theorem c9_suppressed_reference_counterexample :
    findRelatedNotes ["abc", "- [[abc]]"] "" = ["- [[abc]]"] ∧
      "- [[- [[abc]]]]" ∉ findRelatedNotes ["abc", "- [[abc]]"] "" := by
  constructor
  · decide
  · decide

/-- C9 amended. When the transcript is empty or carries leading or trailing
whitespace, the whitespace split contributes an empty token, the empty string
is a substring of every title, and hence every known file whose basename has
length at least 3 is reported as referenced, in corpus order, truncated to the
first 10 — provided no basename textually equals the link line already pushed
for an earlier-reported basename (an earlier basename of length at least 3),
since the broken membership guard suppresses exactly such colliding
basenames. -/
theorem c9_empty_or_padded_transcript (files : List String) (text : String)
    (htext : text.data = [] ∨
      (∃ c, text.data.head? = some c ∧ isWsChar c = true) ∨
      (∃ c, text.data.getLast? = some c ∧ isWsChar c = true))
    (hfiles : List.Pairwise
      (fun g f => 3 ≤ g.length → f.data ≠ linkLine g.data) files) :
    findRelatedNotes files text =
      (((files.filter fun f => 3 ≤ f.length).map
        fun f => String.mk (linkLine f.data)).take 10) := by
  have hmem : [] ∈ jsSplitWs (lowerList text.data) := empty_token_mem text.data htext
  have hacc := relatedAccepts_of_empty_token (jsSplitWs (lowerList text.data)) hmem
  unfold findRelatedNotes
  dsimp only
  rw [relatedFold_of_degenerate _ hacc files []
    (by intro f hf hmem0; simp at hmem0) hfiles]
  rw [List.nil_append, List.map_take, List.map_map]
  rfl

/-- Witness for C9 at the transcript consisting of a single space and a small
corpus without link-line collisions (one basename even contains a bracket):
all three basenames of length at least 3 are reported. -/
theorem c9_empty_or_padded_transcript_witness :
    ((" " : String).data = [] ∨
      (∃ c, (" " : String).data.head? = some c ∧ isWsChar c = true) ∨
      (∃ c, (" " : String).data.getLast? = some c ∧ isWsChar c = true)) ∧
    List.Pairwise (fun g f => 3 ≤ g.length → f.data ≠ linkLine g.data)
      (["abcd", "xy", "ab[c", "note one"] : List String) ∧
    findRelatedNotes ["abcd", "xy", "ab[c", "note one"] " " =
      ((((["abcd", "xy", "ab[c", "note one"] : List String).filter
          fun f => 3 ≤ f.length).map
        fun f => String.mk (linkLine f.data)).take 10) := by
  refine ⟨Or.inr (Or.inl ⟨' ', rfl, rfl⟩), by decide,
    c9_empty_or_padded_transcript ["abcd", "xy", "ab[c", "note one"] " "
      (Or.inr (Or.inl ⟨' ', rfl, rfl⟩)) (by decide)⟩

end MeetingIntelligence
